import Mathlib

/-!
Verification of the BI Spec Builder requirements-gathering application
(React/Supabase). The components embedded here are:

* `RequirementsChat` — the functional-requirements conversation engine
  (`determineNextStep`, `generateResponse`, `handleChangeRequest`,
  `saveTabs`, `saveFilters`);
* `DesignRequirementsChat` — the design-requirements conversation engine
  (`determineNextStep`, `processUserInput`);
* `TasksManager` — task insert/delete/drag-reorder (`addTask`, `deleteTask`,
  `handleDrop`);
* `ProjectEditor` — project lifecycle (`createEnhancement`,
  `getLatestVersion`, the Create Enhancement button gate).

JavaScript string primitives (`split`, `trim`, `toLowerCase`, `includes`)
are modelled over `List Char` so that every definition is executable by
kernel reduction.  Chat input always comes from a single-line text box, so
strings are assumed to contain no newline (relevant only to the regex `.`
in the change interpreter).  JS truthiness appears in the source only on
strings (truthy iff non-empty), arrays (always truthy), and
absent/undefined values; the embedding makes each such test explicit at
its use site.
-/

namespace BiSpec

/-! ### JavaScript string primitives over `List Char` -/

/-- `String.prototype.split(sep)` for a one-character separator: keeps empty
tokens, and splitting the empty string yields one empty token. -/
def jsSplitAux (sep : Char) : List Char → List Char → List (List Char)
  | acc, [] => [acc.reverse]
  | acc, c :: cs =>
    if c = sep then acc.reverse :: jsSplitAux sep [] cs
    else jsSplitAux sep (c :: acc) cs

/-- JS `split` on a single character. -/
def jsSplit (sep : Char) (cs : List Char) : List (List Char) :=
  jsSplitAux sep [] cs

/-- `String.prototype.trim()`: strip whitespace from both ends. -/
def trimChars (cs : List Char) : List Char :=
  ((cs.dropWhile Char.isWhitespace).reverse.dropWhile Char.isWhitespace).reverse

/-- `String.prototype.toLowerCase()` (ASCII-adequate for this app). -/
def lowerChars (cs : List Char) : List Char :=
  cs.map Char.toLower

/-- `String.prototype.includes(needle)`: substring containment. -/
def containsSub (needle : List Char) : List Char → Bool
  | [] => needle.isEmpty
  | c :: cs => needle.isPrefixOf (c :: cs) || containsSub needle cs

/-! ### Step-input parsing (RequirementsChat.generateResponse and
DesignRequirementsChat.processUserInput) -/

/-- `generateResponse`, case `data_sources` (RequirementsChat):
`userInput.split(',').map(s => s.trim())` — note: no removal of empty
tokens. -/
def parseDataSources (userInput : String) : List String :=
  (jsSplit ',' userInput.data).map (fun t => String.mk (trimChars t))

/-- `generateResponse`, case `metrics` (RequirementsChat):
`userInput.split(',').map(s => s.trim())` — note: no removal of empty
tokens. -/
def parseMetrics (userInput : String) : List String :=
  (jsSplit ',' userInput.data).map (fun t => String.mk (trimChars t))

/-- `processUserInput`, case `color_palette` (DesignRequirementsChat):
`userInput.split(',').map(c => c.trim()).filter(c => c)` — empty tokens
dropped via JS truthiness. -/
def parseColorPalette (userInput : String) : List String :=
  (((jsSplit ',' userInput.data).map trimChars).filter (fun t => !t.isEmpty)).map String.mk

/-- `processUserInput`, case `fonts` (DesignRequirementsChat):
`userInput.split(',').map(f => f.trim()).filter(f => f)`. -/
def parseFonts (userInput : String) : List String :=
  (((jsSplit ',' userInput.data).map trimChars).filter (fun t => !t.isEmpty)).map String.mk

/-- `generateResponse`, case `filters` (RequirementsChat):
`userInput.toLowerCase() === 'none' ? [] : userInput.split(',').map(s => s.trim())`. -/
def parseFilters (userInput : String) : List String :=
  if lowerChars userInput.data = "none".data then []
  else (jsSplit ',' userInput.data).map (fun t => String.mk (trimChars t))

/-- `handleSend` guard (RequirementsChat): `if (!input.trim() || isTyping)
return;` — a blocked submission leaves the conversation state untouched. -/
def handleSendBlocked (input : String) : Bool :=
  (trimChars input.data).isEmpty

/-- `saveTabs` (RequirementsChat): tab-name extraction.
`tabsInput.includes(',') ? tabsInput.split(',').map(s => s.trim()) :
[tabsInput.trim()]`. -/
def saveTabsNames (tabsInput : String) : List String :=
  if tabsInput.data.contains ',' then
    (jsSplit ',' tabsInput.data).map (fun t => String.mk (trimChars t))
  else [String.mk (trimChars tabsInput.data)]

/-- A row of the `dashboard_tabs` table as inserted by `saveTabs`. -/
structure TabRow where
  project_id : Nat
  name : String
  order_index : Nat
deriving DecidableEq

/-- `saveTabs` (RequirementsChat): the rows inserted after the
delete-all, `tabNames.map((name, index) => ({project_id, name,
order_index: index}))`. -/
def saveTabsRows (projectId : Nat) (tabsInput : String) : List TabRow :=
  (saveTabsNames tabsInput).mapIdx
    (fun index name => { project_id := projectId, name := name, order_index := index })

/-! ### Generic index-assignment lemmas -/

theorem mapIdx_map_of_proj {α β : Type} (p : β → Nat) (g : Nat → α → β)
    (hp : ∀ i a, p (g i a) = i) (l : List α) :
    (l.mapIdx g).map p = List.range l.length := by
  rw [List.mapIdx_eq_enum_map, List.map_map]
  have h : (p ∘ Function.uncurry g) = Prod.fst := by
    funext x
    cases x with
    | mk i a => exact hp i a
  rw [h, List.enum_map_fst]

theorem mapIdx_map_of_val {α β : Type} (q : β → α) (g : Nat → α → β)
    (hq : ∀ i a, q (g i a) = a) (l : List α) :
    (l.mapIdx g).map q = l := by
  rw [List.mapIdx_eq_enum_map, List.map_map]
  have h : (q ∘ Function.uncurry g) = Prod.snd := by
    funext x
    cases x with
    | mk i a => exact hq i a
  rw [h, List.enum_map_snd]

/-! ### C4 — list-step parsing -/

/-- C4 counterexample: the claim says all four list steps drop empty
tokens, but the `data_sources` (and `metrics`) parsing keeps them:
parsing `" a , b ,,c"` at `data_sources` yields `["a", "b", "", "c"]`,
not `["a", "b", "c"]`. -/
theorem parse_list_counterexample :
    parseDataSources " a , b ,,c" = ["a", "b", "", "c"]
    ∧ parseDataSources " a , b ,,c" ≠ ["a", "b", "c"]
    ∧ parseMetrics " a , b ,,c" = ["a", "b", "", "c"] := by
  decide

/-- C4 (amended): every list step splits on commas, trims each token,
preserves order and keeps duplicates, but only `color_palette` and
`fonts` drop empty tokens; `data_sources` and `metrics` retain them.
On `" a , b ,,c"` the design steps give `["a","b","c"]` while the
functional steps give `["a","b","","c"]`. -/
theorem parse_list_rules :
    (∀ s, parseColorPalette s = (parseDataSources s).filter (fun t => !t.data.isEmpty))
    ∧ (∀ s, parseFonts s = parseColorPalette s)
    ∧ (∀ s, parseMetrics s = parseDataSources s)
    ∧ parseColorPalette " a , b ,,c" = ["a", "b", "c"]
    ∧ parseFonts " a , b ,,c" = ["a", "b", "c"]
    ∧ parseDataSources " a , b ,,c" = ["a", "b", "", "c"] := by
  refine ⟨?_, fun s => rfl, fun s => rfl, by decide, by decide, by decide⟩
  intro s
  unfold parseColorPalette parseDataSources
  induction jsSplit ',' s.data with
  | nil => rfl
  | cons a l ih =>
    by_cases h : (trimChars a).isEmpty = true <;>
      simp [List.filter_cons, h, ih]

/-! ### C9 — tabs step -/

/-- C9: `saveTabs` splits on commas when one is present, otherwise treats
the whole (trimmed) input as a single tab name — `"3"` becomes one tab
named `"3"`, never a tab count — and inserts rows whose `order_index`
values are the dense sequence `0, …, n-1` in input order. -/
theorem tabs_single_name_and_dense_indices :
    (∀ projectId tabsInput,
        (saveTabsRows projectId tabsInput).map (fun r => r.order_index)
          = List.range (saveTabsNames tabsInput).length
        ∧ (saveTabsRows projectId tabsInput).map (fun r => r.name)
          = saveTabsNames tabsInput)
    ∧ saveTabsNames "3" = ["3"]
    ∧ saveTabsNames "Overview, Detail" = ["Overview", "Detail"]
    ∧ saveTabsRows 1 "3" = [{ project_id := 1, name := "3", order_index := 0 }] := by
  refine ⟨?_, by decide, by decide, by decide⟩
  intro projectId tabsInput
  constructor
  · exact mapIdx_map_of_proj _ _ (fun i a => rfl) _
  · exact mapIdx_map_of_val _ _ (fun i a => rfl) _

/-! ### C10 — filters "none" sentinel -/

/-- C10: an input that case-insensitively equals `"none"` at the filters
step parses to the empty filter list; the empty string never reaches the
step handler (`handleSend` returns early, so the step does not advance);
any other input is comma-split and trimmed. -/
theorem filters_none_sentinel :
    (∀ s, lowerChars s.data = "none".data → parseFilters s = [])
    ∧ handleSendBlocked "" = true
    ∧ (∀ s, lowerChars s.data ≠ "none".data →
        parseFilters s = (jsSplit ',' s.data).map (fun t => String.mk (trimChars t))) := by
  refine ⟨fun s h => ?_, by decide, fun s h => ?_⟩
  · simp [parseFilters, h]
  · simp [parseFilters, h]

/-- Witness for C10 at concrete inputs. -/
theorem filters_none_sentinel_witness :
    parseFilters "NONE" = [] ∧ parseFilters "Region, Year" = ["Region", "Year"] := by
  refine ⟨filters_none_sentinel.1 "NONE" (by decide), ?_⟩
  rw [filters_none_sentinel.2.2 "Region, Year" (by decide)]
  decide

/-! ### C1 — resume-at-first-gap

`RequirementsChat.loadExistingRequirements` only stores non-empty values
into `data` (strings guarded by truthiness, arrays by `length > 0`,
booleans by `!== null`), so each field of the conversation data is either
absent (`none`) or a loaded value; the step handlers store strings (which
the guard in `handleSend` keeps non-empty) and arrays (possibly empty,
but arrays are always truthy in JS).  `strFalsy` reproduces the JS `!x`
test on a string-valued field, `Option.isNone` the `!x` test on an
array-valued field, and `Option.isNone` the `=== undefined` test on a
boolean field. -/

/-- JS `!x` on a field holding a string or `undefined`. -/
def strFalsy : Option String → Bool
  | none => true
  | some s => s.data.isEmpty

/-- Conversation `data` of `RequirementsChat` (functional flow). -/
structure FuncData where
  name : Option String := none
  description : Option String := none
  audience : Option String := none
  data_sources : Option (List String) := none
  metrics : Option (List String) := none
  tabs : Option String := none
  filters : Option (List String) := none
  has_appendix : Option Bool := none
  has_metric_logic : Option Bool := none
deriving DecidableEq

/-- Conversation `data` of `DesignRequirementsChat` (design flow). -/
structure DesignData where
  dashboard_size : Option String := none
  color_palette : Option (List String) := none
  fonts : Option (List String) := none
  logo_url : Option String := none
  logo_location : Option String := none
  additional_requirements : Option String := none
deriving DecidableEq

namespace RequirementsChat

/-- `determineNextStep` (RequirementsChat): the chain of `if (!data.x)
return 'x'` tests. -/
def determineNextStep (data : FuncData) : String :=
  if strFalsy data.name then "name"
  else if strFalsy data.description then "description"
  else if strFalsy data.audience then "audience"
  else if data.data_sources.isNone then "data_sources"
  else if data.metrics.isNone then "metrics"
  else if strFalsy data.tabs then "tabs"
  else if data.filters.isNone then "filters"
  else if data.has_appendix.isNone then "appendix"
  else if data.has_metric_logic.isNone then "metric_logic"
  else "additional"

end RequirementsChat

namespace DesignRequirementsChat

/-- `determineNextStep` (DesignRequirementsChat). -/
def determineNextStep (data : DesignData) : String :=
  if strFalsy data.dashboard_size then "dashboard_size"
  else if data.color_palette.isNone then "color_palette"
  else if data.fonts.isNone then "fonts"
  else if strFalsy data.logo_url then "logo"
  else if strFalsy data.additional_requirements then "additional"
  else "complete"

end DesignRequirementsChat

/-- The ordered field list of the functional flow, as the spec states it. -/
inductive FuncField where
  | name | description | audience | data_sources | metrics | tabs | filters
  | appendix | metric_logic
deriving DecidableEq

/-- Spec-side: the functional flow's ordered field list. -/
def funcFieldOrder : List FuncField :=
  [.name, .description, .audience, .data_sources, .metrics, .tabs, .filters,
   .appendix, .metric_logic]

/-- Spec-side: whether a functional-flow field is still empty in `data`. -/
def funcFieldEmpty (d : FuncData) : FuncField → Bool
  | .name => strFalsy d.name
  | .description => strFalsy d.description
  | .audience => strFalsy d.audience
  | .data_sources => d.data_sources.isNone
  | .metrics => d.metrics.isNone
  | .tabs => strFalsy d.tabs
  | .filters => d.filters.isNone
  | .appendix => d.has_appendix.isNone
  | .metric_logic => d.has_metric_logic.isNone

/-- Spec-side: the step name of a functional-flow field. -/
def funcStepName : FuncField → String
  | .name => "name"
  | .description => "description"
  | .audience => "audience"
  | .data_sources => "data_sources"
  | .metrics => "metrics"
  | .tabs => "tabs"
  | .filters => "filters"
  | .appendix => "appendix"
  | .metric_logic => "metric_logic"

/-- Spec-side resume policy for the functional flow: the step is the first
field of the ordered list that is still empty, else `additional`. -/
def funcResumeStep (d : FuncData) : String :=
  (funcFieldOrder.find? (fun f => funcFieldEmpty d f)).elim "additional" funcStepName

/-- The ordered field list of the design flow, as the spec states it. -/
inductive DesignField where
  | dashboard_size | color_palette | fonts | logo | additional
deriving DecidableEq

/-- Spec-side: the design flow's ordered field list. -/
def designFieldOrder : List DesignField :=
  [.dashboard_size, .color_palette, .fonts, .logo, .additional]

/-- Spec-side: whether a design-flow field is still empty in `data` (the
`logo` step is gated on `logo_url`, the `additional` step on
`additional_requirements`). -/
def designFieldEmpty (d : DesignData) : DesignField → Bool
  | .dashboard_size => strFalsy d.dashboard_size
  | .color_palette => d.color_palette.isNone
  | .fonts => d.fonts.isNone
  | .logo => strFalsy d.logo_url
  | .additional => strFalsy d.additional_requirements

/-- Spec-side: the step name of a design-flow field. -/
def designStepName : DesignField → String
  | .dashboard_size => "dashboard_size"
  | .color_palette => "color_palette"
  | .fonts => "fonts"
  | .logo => "logo"
  | .additional => "additional"

/-- Spec-side resume policy for the design flow. -/
def designResumeStep (d : DesignData) : String :=
  (designFieldOrder.find? (fun f => designFieldEmpty d f)).elim "complete" designStepName

/-- C1: both conversation engines resume at the first gap: for every
(partially filled) data record, the computed step is the first field of
the flow's fixed ordered list that is still empty — in particular an
earlier empty field is re-prompted even when later fields are filled. -/
theorem resume_at_first_gap :
    (∀ d : FuncData, RequirementsChat.determineNextStep d = funcResumeStep d)
    ∧ (∀ d : DesignData, DesignRequirementsChat.determineNextStep d = designResumeStep d) := by
  constructor
  · intro d
    unfold RequirementsChat.determineNextStep funcResumeStep funcFieldOrder
    by_cases h1 : strFalsy d.name = true
    · simp [List.find?, funcFieldEmpty, funcStepName, h1]
    by_cases h2 : strFalsy d.description = true
    · simp [List.find?, funcFieldEmpty, funcStepName, h1, h2]
    by_cases h3 : strFalsy d.audience = true
    · simp [List.find?, funcFieldEmpty, funcStepName, h1, h2, h3]
    by_cases h4 : d.data_sources.isNone = true
    · simp [List.find?, funcFieldEmpty, funcStepName, h1, h2, h3, h4]
    by_cases h5 : d.metrics.isNone = true
    · simp [List.find?, funcFieldEmpty, funcStepName, h1, h2, h3, h4, h5]
    by_cases h6 : strFalsy d.tabs = true
    · simp [List.find?, funcFieldEmpty, funcStepName, h1, h2, h3, h4, h5, h6]
    by_cases h7 : d.filters.isNone = true
    · simp [List.find?, funcFieldEmpty, funcStepName, h1, h2, h3, h4, h5, h6, h7]
    by_cases h8 : d.has_appendix.isNone = true
    · simp [List.find?, funcFieldEmpty, funcStepName, h1, h2, h3, h4, h5, h6, h7, h8]
    by_cases h9 : d.has_metric_logic.isNone = true
    · simp [List.find?, funcFieldEmpty, funcStepName, h1, h2, h3, h4, h5, h6, h7, h8, h9]
    simp [List.find?, funcFieldEmpty, funcStepName, h1, h2, h3, h4, h5, h6, h7, h8, h9]
  · intro d
    unfold DesignRequirementsChat.determineNextStep designResumeStep designFieldOrder
    by_cases h1 : strFalsy d.dashboard_size = true
    · simp [List.find?, designFieldEmpty, designStepName, h1]
    by_cases h2 : d.color_palette.isNone = true
    · simp [List.find?, designFieldEmpty, designStepName, h1, h2]
    by_cases h3 : d.fonts.isNone = true
    · simp [List.find?, designFieldEmpty, designStepName, h1, h2, h3]
    by_cases h4 : strFalsy d.logo_url = true
    · simp [List.find?, designFieldEmpty, designStepName, h1, h2, h3, h4]
    by_cases h5 : strFalsy d.additional_requirements = true
    · simp [List.find?, designFieldEmpty, designStepName, h1, h2, h3, h4, h5]
    simp [List.find?, designFieldEmpty, designStepName, h1, h2, h3, h4, h5]

/-! ### C3 — task `order_index` density (TasksManager) -/

/-- A row of the `tasks` table. -/
structure Task where
  id : Nat
  description : String
  order_index : Nat
  completed : Bool
deriving DecidableEq

/-- `addTask` (TasksManager): the new task gets
`order_index = (tasks.length > 0 ? Math.max(...order_index) : -1) + 1`
and is appended. -/
def addTask (tasks : List Task) (freshId : Nat) (description : String) : List Task :=
  let newIndex :=
    match (tasks.map (fun t => t.order_index)).max? with
    | some m => m + 1
    | none => 0
  tasks ++ [{ id := freshId, description := description,
              order_index := newIndex, completed := false }]

/-- `deleteTask` (TasksManager): the row is removed and nothing is
reindexed. -/
def deleteTask (tasks : List Task) (taskId : Nat) : List Task :=
  tasks.filter (fun t => !(t.id == taskId))

/-- The per-position `order_index` writes issued after a drop:
`newTasks.map((task, idx) => update order_index = idx)`. -/
def reindexTasks (l : List Task) : List Task :=
  l.mapIdx (fun idx task => { task with order_index := idx })

/-- `handleDrop` (TasksManager): remove the dragged task, re-insert it at
`dropIndex`, then persist `order_index = position` for every task.  The
`none` branch (dragged id not in the list) cannot arise in the UI — a drag
starts from a rendered task — and is modelled as a no-op. -/
def handleDrop (tasks : List Task) (draggedTaskId : Nat) (dropIndex : Nat) : List Task :=
  match tasks.findIdx? (fun t => t.id == draggedTaskId) with
  | none => tasks
  | some draggedIndex =>
    match tasks.get? draggedIndex with
    | none => tasks
    | some draggedTask =>
      if draggedIndex = dropIndex then tasks
      else reindexTasks ((tasks.eraseIdx draggedIndex).insertIdx dropIndex draggedTask)

/-- The invariant claimed by the spec: the multiset of `order_index`
values is exactly `{0, …, n-1}`. -/
def denseTaskIndices (tasks : List Task) : Prop :=
  (tasks.map (fun t => t.order_index)).Perm (List.range tasks.length)

instance (tasks : List Task) : Decidable (denseTaskIndices tasks) := by
  unfold denseTaskIndices
  infer_instance

/-- `List.max?` on `Nat` returns the maximum. -/
theorem nat_max?_eq_some_iff {xs : List Nat} {a : Nat} :
    xs.max? = some a ↔ a ∈ xs ∧ ∀ b ∈ xs, b ≤ a :=
  List.max?_eq_some_iff (fun x => Nat.le_refl x) (fun x y => max_choice x y)
    (fun _ _ _ => Nat.max_le)

theorem reindexTasks_dense (l : List Task) : denseTaskIndices (reindexTasks l) := by
  unfold denseTaskIndices
  have h1 : (reindexTasks l).map (fun t => t.order_index) = List.range l.length :=
    mapIdx_map_of_proj (fun t => t.order_index)
      (fun idx task => { task with order_index := idx }) (fun i a => rfl) l
  have h2 : (reindexTasks l).length = l.length := by
    unfold reindexTasks
    simp [List.mapIdx_eq_enum_map]
  rw [h1, h2]

/-- C3 counterexample: the claim includes task deletion, but `deleteTask`
only removes the row — deleting the first of two tasks leaves the index
set `{1}`, which is not `{0}`. -/
theorem task_delete_leaves_gap :
    denseTaskIndices
      [{ id := 0, description := "a", order_index := 0, completed := false },
       { id := 1, description := "b", order_index := 1, completed := false }]
    ∧ ¬ denseTaskIndices
      (deleteTask
        [{ id := 0, description := "a", order_index := 0, completed := false },
         { id := 1, description := "b", order_index := 1, completed := false }] 0) := by
  decide

/-- C3 (amended): starting from a dense state, a task insert appends
`order_index = n` and a drag-reorder rewrites the indices to positions, so
both leave the index multiset exactly `{0, …, n-1}`; a task delete,
however, removes the row without reindexing and can leave a gap (see the
counterexample). -/
theorem tasks_dense_after_insert_and_reorder :
    (∀ tasks freshId description, denseTaskIndices tasks →
        denseTaskIndices (addTask tasks freshId description))
    ∧ (∀ tasks draggedTaskId dropIndex, denseTaskIndices tasks →
        denseTaskIndices (handleDrop tasks draggedTaskId dropIndex)) := by
  constructor
  · intro tasks freshId description h
    unfold denseTaskIndices at h
    unfold denseTaskIndices addTask
    cases hm : (tasks.map (fun t => t.order_index)).max? with
    | none =>
      have hnil : tasks.map (fun t => t.order_index) = [] := List.max?_eq_none_iff.mp hm
      have hlen : tasks.length = 0 := by simpa using congrArg List.length hnil
      have htasks : tasks = [] := List.length_eq_zero.mp hlen
      subst htasks
      simp [List.range_succ]
    | some m =>
      obtain ⟨hmem, hub⟩ := nat_max?_eq_some_iff.mp hm
      have hpos : 0 < tasks.length := by
        rcases tasks with _ | ⟨t, ts⟩
        · simp at hmem
        · simp
      have hmlt : m < tasks.length := List.mem_range.mp (h.mem_iff.mp hmem)
      have hlast : tasks.length - 1 ∈ tasks.map (fun t => t.order_index) := by
        refine h.mem_iff.mpr (List.mem_range.mpr ?_)
        omega
      have hm_eq : m = tasks.length - 1 := by
        have := hub _ hlast
        omega
      have hstep : m + 1 = tasks.length := by omega
      simp only [List.map_append, List.map_cons, List.map_nil, List.length_append,
        List.length_cons, List.length_nil]
      rw [hstep, List.range_succ]
      exact h.append (List.Perm.refl _)
  · intro tasks draggedTaskId dropIndex h
    unfold handleDrop
    cases hf : tasks.findIdx? (fun t => t.id == draggedTaskId) with
    | none => exact h
    | some draggedIndex =>
      dsimp only
      cases hg : tasks.get? draggedIndex with
      | none => exact h
      | some draggedTask =>
        dsimp only
        by_cases hd : draggedIndex = dropIndex
        · rw [if_pos hd]
          exact h
        · rw [if_neg hd]
          exact reindexTasks_dense _

/-- Witness for C3 (amended) at a concrete dense task list. -/
theorem tasks_dense_after_insert_and_reorder_witness :
    denseTaskIndices
      (addTask
        [{ id := 0, description := "a", order_index := 0, completed := false },
         { id := 1, description := "b", order_index := 1, completed := false }] 2 "c")
    ∧ denseTaskIndices
      (handleDrop
        [{ id := 0, description := "a", order_index := 0, completed := false },
         { id := 1, description := "b", order_index := 1, completed := false }] 0 1) := by
  constructor
  · exact tasks_dense_after_insert_and_reorder.1 _ 2 "c" (by decide)
  · exact tasks_dense_after_insert_and_reorder.2 _ 0 1 (by decide)

/-! ### C2, C6 — enhancement creation (ProjectEditor) -/

/-- A row of the `projects` table (the columns used by the lifecycle
logic). -/
structure Project where
  id : Nat
  name : String
  description : String
  audience : String
  status : String
  created_by : Nat
  version_number : Nat
  parent_project_id : Option Nat
  has_appendix_tab : Bool
  has_metric_logic_tab : Bool
deriving DecidableEq

/-- A row of the `change_history` table (the columns set by
`createChangeHistory`). -/
structure ChangeHistoryEntry where
  project_id : Nat
  changed_by : Nat
  change_type : String
  change_description : String
deriving DecidableEq

/-- Result of `createEnhancement`: the table after the insert, the
inserted row, and the emitted history entry. -/
structure EnhancementResult where
  newDb : List Project
  newProject : Project
  history : ChangeHistoryEntry
deriving DecidableEq

/-- `getLatestVersion` (ProjectEditor): `rootId = parent_project_id ||
id`; query `version_number` of rows with `id = rootId` or
`parent_project_id = rootId`, descending, `limit(1)`; the JS result is
`data?.version_number || project.version_number` (the `||` also replaces
a falsy `0`). -/
def getLatestVersion (db : List Project) (project : Project) : Nat :=
  let rootId := project.parent_project_id.getD project.id
  let top := ((db.filter (fun p =>
    p.id == rootId || p.parent_project_id == some rootId)).map
      (fun p => p.version_number)).max?
  match top with
  | some v => if v = 0 then project.version_number else v
  | none => project.version_number

/-- `createEnhancement` (ProjectEditor): version is
`getLatestVersion + 1`; the new row copies the scalar fields, points its
`parent_project_id` at the version-tree root, and a `'version'`
change-history entry is attached to the new row's id. -/
def createEnhancement (db : List Project) (project : Project)
    (userId : Nat) (freshId : Nat) : EnhancementResult :=
  let latestVersion := getLatestVersion db project
  let newVersion := latestVersion + 1
  let enhancementProject : Project :=
    { id := freshId
      name := project.name ++ " - Enhancement v" ++ toString newVersion
      description := project.description
      audience := project.audience
      status := "draft"
      created_by := userId
      parent_project_id := some (project.parent_project_id.getD project.id)
      version_number := newVersion
      has_appendix_tab := project.has_appendix_tab
      has_metric_logic_tab := project.has_metric_logic_tab }
  { newDb := db ++ [enhancementProject]
    newProject := enhancementProject
    history :=
      { project_id := freshId
        changed_by := userId
        change_type := "version"
        change_description := "Created enhancement version " ++ toString newVersion } }

/-- Spec-side: the id of the version-tree root,
`current.parent_project_id ?? current.id`. -/
def versionRoot (project : Project) : Nat :=
  project.parent_project_id.getD project.id

/-- Spec-side: the `version_number`s of the root together with every
project whose `parent_project_id` is the root. -/
def versionPool (db : List Project) (rootId : Nat) : List Nat :=
  (db.filter (fun p => p.id == rootId || p.parent_project_id == some rootId)).map
    (fun p => p.version_number)

theorem self_mem_versionPool {db : List Project} {project : Project}
    (hmem : project ∈ db) :
    project.version_number ∈ versionPool db (versionRoot project) := by
  unfold versionPool versionRoot
  refine List.mem_map.mpr ⟨project, List.mem_filter.mpr ⟨hmem, ?_⟩, rfl⟩
  cases hp : project.parent_project_id with
  | none => simp [hp]
  | some r => simp [hp]

/-- C2: `createEnhancement` inserts a project whose `version_number` is
one plus the maximum `version_number` over the version-tree root and all
of the root's children, whose `parent_project_id` is the root (never an
intermediate version), whose name is the current name followed by
`" - Enhancement v"` and the new version, and it emits a `'version'`
change-history entry attached to the new project. -/
theorem createEnhancement_spec (db : List Project) (project : Project)
    (userId freshId : Nat) (hmem : project ∈ db)
    (hver : ∀ p ∈ db, 1 ≤ p.version_number) :
    (createEnhancement db project userId freshId).newProject.parent_project_id
        = some (versionRoot project)
    ∧ (∃ m ∈ versionPool db (versionRoot project),
        (∀ v ∈ versionPool db (versionRoot project), v ≤ m)
        ∧ (createEnhancement db project userId freshId).newProject.version_number = m + 1)
    ∧ (createEnhancement db project userId freshId).newProject.name
        = project.name ++ " - Enhancement v"
          ++ toString (createEnhancement db project userId freshId).newProject.version_number
    ∧ (createEnhancement db project userId freshId).history.change_type = "version"
    ∧ (createEnhancement db project userId freshId).history.project_id
        = (createEnhancement db project userId freshId).newProject.id
    ∧ (createEnhancement db project userId freshId).newDb
        = db ++ [(createEnhancement db project userId freshId).newProject] := by
  have hpool : project.version_number ∈ versionPool db (versionRoot project) :=
    self_mem_versionPool hmem
  have hne : versionPool db (versionRoot project) ≠ [] := by
    intro hnil
    rw [hnil] at hpool
    exact absurd hpool (List.not_mem_nil _)
  cases hmax : (versionPool db (versionRoot project)).max? with
  | none => exact absurd (List.max?_eq_none_iff.mp hmax) hne
  | some m =>
    obtain ⟨hmmem, hub⟩ := nat_max?_eq_some_iff.mp hmax
    have hm1 : 1 ≤ m := by
      obtain ⟨p, hp, hpv⟩ := List.mem_map.mp hmmem
      exact hpv ▸ hver p (List.mem_filter.mp hp).1
    have hlatest : getLatestVersion db project = m := by
      have hdef : getLatestVersion db project =
          match (versionPool db (versionRoot project)).max? with
          | some v => if v = 0 then project.version_number else v
          | none => project.version_number := rfl
      rw [hdef, hmax]
      have hm0 : ¬ m = 0 := by omega
      simp [hm0]
    refine ⟨rfl, ⟨m, hmmem, hub, ?_⟩, rfl, rfl, rfl, rfl⟩
    show getLatestVersion db project + 1 = m + 1
    rw [hlatest]

/-- Demonstration data for the enhancement witnesses: root `R`
(version 1) and its enhancement `E1` (version 2), both done. -/
def demoRoot : Project :=
  { id := 1, name := "Sales", description := "d", audience := "a",
    status := "done", created_by := 9, version_number := 1,
    parent_project_id := none, has_appendix_tab := false,
    has_metric_logic_tab := false }

/-- Demonstration enhancement of `demoRoot`. -/
def demoE1 : Project :=
  { id := 2, name := "Sales - Enhancement v2", description := "d",
    audience := "a", status := "done", created_by := 9,
    version_number := 2, parent_project_id := some 1,
    has_appendix_tab := false, has_metric_logic_tab := false }

/-- Witness for C2: creating a second enhancement from `E1` yields
version 3 parented at the root `R`. -/
theorem createEnhancement_spec_witness :
    (createEnhancement [demoRoot, demoE1] demoE1 9 3).newProject.parent_project_id
      = some (versionRoot demoE1)
    ∧ ∃ m ∈ versionPool [demoRoot, demoE1] (versionRoot demoE1),
        (∀ v ∈ versionPool [demoRoot, demoE1] (versionRoot demoE1), v ≤ m)
        ∧ (createEnhancement [demoRoot, demoE1] demoE1 9 3).newProject.version_number = m + 1 := by
  have h := createEnhancement_spec [demoRoot, demoE1] demoE1 9 3
    (by decide) (by decide)
  exact ⟨h.1, h.2.1⟩

/-- The Create Enhancement button (ProjectEditor):
`disabled={project.status !== 'done'}` — this is the only path to
`createEnhancement`. -/
def enhancementButtonEnabled (project : Project) : Bool :=
  project.status == "done"

/-- A click on Create Enhancement: blocked (`none`) unless the button is
enabled. -/
def clickCreateEnhancement (db : List Project) (project : Project)
    (userId freshId : Nat) : Option EnhancementResult :=
  if enhancementButtonEnabled project then
    some (createEnhancement db project userId freshId)
  else none

/-- C6: attempting to create an enhancement from a project whose status
is `draft` is a no-op — the button is disabled, so `createEnhancement` is
never reached; only status `done` enables it. -/
theorem enhancement_requires_done (db : List Project) (project : Project)
    (userId freshId : Nat) (hdraft : project.status = "draft") :
    clickCreateEnhancement db project userId freshId = none := by
  unfold clickCreateEnhancement enhancementButtonEnabled
  rw [hdraft]
  rfl

/-- Witness for C6 at a concrete draft project. -/
theorem enhancement_requires_done_witness :
    clickCreateEnhancement [demoRoot]
      { demoRoot with id := 4, status := "draft" } 9 5 = none :=
  enhancement_requires_done [demoRoot]
    { demoRoot with id := 4, status := "draft" } 9 5 rfl

/-! ### C7 — saveFilters (RequirementsChat) -/

/-- A row of the `filters` table (columns used by `saveFilters` and the
export query). -/
structure FilterRow where
  project_id : Option Nat
  tab_id : Option Nat
  name : String
  data_source : String
  multi_select : Bool
deriving DecidableEq

/-- `saveFilters` (RequirementsChat): builds rows with `tab_id: null` and
no `project_id` at all, then runs
`supabase.from('filters').delete().is('tab_id', null)` — a delete of
every global filter row in the whole table, not scoped to the current
project — followed by the insert. -/
def saveFilters (db : List FilterRow) (filterNames : List String) : List FilterRow :=
  let filtersToInsert := filterNames.map (fun n =>
    { project_id := none, tab_id := none, name := n,
      data_source := "", multi_select := false : FilterRow })
  (db.filter (fun r => !(r.tab_id == (none : Option Nat)))) ++ filtersToInsert

/-- A pre-existing global filter belonging to project 2. -/
def regionRowOfProject2 : FilterRow :=
  { project_id := some 2, tab_id := none, name := "Region",
    data_source := "Country", multi_select := true }

/-- C7 evaluation at the failing input: answering the filters step for
project 1 with `"Year"` deletes project 2's global filter and inserts a
row that is associated with no project at all (its `project_id` is null),
contradicting the claim that each inserted row is associated with the
current project and that other projects' global filters are unchanged.
(The migration adding `filters.project_id` and the export query
`eq('project_id', …).is('tab_id', null)` both expect project-scoped
rows, so this is a slip in `saveFilters`.) -/
theorem saveFilters_wipes_other_projects :
    saveFilters [regionRowOfProject2] ["Year"]
      = [{ project_id := none, tab_id := none, name := "Year",
           data_source := "", multi_select := false }]
    ∧ regionRowOfProject2 ∉ saveFilters [regionRowOfProject2] ["Year"]
    ∧ (saveFilters [regionRowOfProject2] ["Year"]).map (fun r => r.project_id)
        = [none] := by
  decide

/-! ### C8 — design flow step order (DesignRequirementsChat) -/

namespace DesignRequirementsChat

/-- `processUserInput` (DesignRequirementsChat): updates the data for the
current step, persists, and computes the next step with
`determineNextStep`; at `complete` it delegates to `handleFreeformUpdate`
which changes neither data nor step.  Returns the updated data and the
next step. -/
def processUserInput (step : String) (d : DesignData) (userInput : String) :
    DesignData × String :=
  match step with
  | "dashboard_size" =>
    let d2 := { d with dashboard_size := some userInput }
    (d2, determineNextStep d2)
  | "color_palette" =>
    let d2 := { d with color_palette := some (parseColorPalette userInput) }
    (d2, determineNextStep d2)
  | "fonts" =>
    let d2 := { d with fonts := some (parseFonts userInput) }
    (d2, determineNextStep d2)
  | "logo" =>
    let logoLower := lowerChars userInput.data
    if containsSub "none".data logoLower || containsSub "no".data logoLower then
      let d2 := { d with logo_url := some "", logo_location := some "none" }
      (d2, determineNextStep d2)
    else
      let d2 := { d with logo_location := some userInput }
      (d2, determineNextStep d2)
  | "additional" =>
    let d2 := { d with additional_requirements := some userInput }
    (d2, determineNextStep d2)
  | "complete" => (d, "complete")
  | _ => (d, determineNextStep d)

end DesignRequirementsChat

/-- Design data with the three steps before `logo` answered. -/
def designBeforeLogo : DesignData :=
  { dashboard_size := some "1920x1080", color_palette := some ["blue"],
    fonts := some ["Arial"], logo_url := none, logo_location := none,
    additional_requirements := none }

/-- C8 evaluation at the failing input: at the `logo` step the handler
stores the placement in `logo_location` (or, for "none", clears
`logo_url` to the empty — still falsy — string), while
`determineNextStep` gates the `logo` step on `logo_url` being truthy, so
the next step after any `logo` answer is `logo` again, not `additional`
as the flow order (also documented in the repository README) requires. -/
theorem design_logo_step_repeats :
    (DesignRequirementsChat.processUserInput "logo" designBeforeLogo "top left").2 = "logo"
    ∧ (DesignRequirementsChat.processUserInput "logo" designBeforeLogo "top left").1.logo_location
        = some "top left"
    ∧ (DesignRequirementsChat.processUserInput "logo" designBeforeLogo "none").2 = "logo"
    ∧ "logo" ≠ "additional" := by
  decide

/-! ### C5 — the Change Interpreter (RequirementsChat.handleChangeRequest)

`handleChangeRequest` tests `input.includes(keyword)` (on the lower-cased
input) for each field in a fixed order and, on a hit, runs
`extractValue(fieldPattern)`; only when the extracted string is truthy
(non-empty) does it update that one field and return.  `extractValue`
tries three case-insensitive regexes in order:

1. `<field>\s+to\s+(.+)` — capture returned as is;
2. `(?:change|update)\s+(.+)` — capture with `^<field>\s*` stripped,
   then trimmed;
3. replace `.*<field>\s*` (greedy: up to the last keyword occurrence)
   with the empty string, then trim.

The field patterns are literal words except `data\s*source[s]?`,
`metric[s]?`, `tab[s]?`, `filter[s]?`.  In these patterns every
backtracking choice is forced except in `\s+(.+)`, where the regex
engine gives one character back to the capture group when only
whitespace follows (`matchTail` below); inputs are single-line, so `.`
matches every remaining character. -/

/-- Match a literal word case-insensitively at the head; returns the
remainder. -/
def matchLit : List Char → List Char → Option (List Char)
  | [], cs => some cs
  | _ :: _, [] => none
  | p :: ps, c :: cs => if p.toLower = c.toLower then matchLit ps cs else none

/-- `[s]?` under the `i` flag: consume one optional letter s. -/
def matchOptS : List Char → List Char
  | [] => []
  | c :: cs => if c.toLower = 's' then cs else c :: cs

/-- `\s+` followed by a literal: require one whitespace character, then
drop the maximal whitespace run (the following literal is never
whitespace, so greedy matching is forced). -/
def matchWs1 : List Char → Option (List Char)
  | [] => none
  | c :: rest =>
    if c.isWhitespace then some (rest.dropWhile Char.isWhitespace)
    else none

/-- `\s+(.+)` at the end of a pattern: at least one whitespace character,
then a non-empty capture.  Greedy `\s+` takes the maximal run, but when
only whitespace follows it backtracks one character so that `(.+)` can
still match — the capture is then that last whitespace character. -/
def matchTail (r : List Char) : Option (List Char) :=
  match r with
  | [] => none
  | c :: rest =>
    if c.isWhitespace then
      match rest.dropWhile Char.isWhitespace with
      | [] => (rest.getLast?).map (fun x => [x])
      | r2 => some r2
    else none

/-- The fields editable through the Change Interpreter, in source order. -/
inductive EditField where
  | name | description | audience | dataSource | metric | tab | filter
deriving DecidableEq

/-- The field regex (`name`, `description`, `audience`,
`data\s*source[s]?`, `metric[s]?`, `tab[s]?`, `filter[s]?`) matched at
the head of the input; returns the remainder. -/
def matchFieldKw (f : EditField) (cs : List Char) : Option (List Char) :=
  match f with
  | .name => matchLit "name".data cs
  | .description => matchLit "description".data cs
  | .audience => matchLit "audience".data cs
  | .dataSource =>
    match matchLit "data".data cs with
    | none => none
    | some r1 =>
      match matchLit "source".data (r1.dropWhile Char.isWhitespace) with
      | none => none
      | some r2 => some (matchOptS r2)
  | .metric => (matchLit "metric".data cs).map matchOptS
  | .tab => (matchLit "tab".data cs).map matchOptS
  | .filter => (matchLit "filter".data cs).map matchOptS

/-- `<field>\s+to\s+(.+)` matched at the head; returns the capture. -/
def matchFieldToAt (f : EditField) (cs : List Char) : Option (List Char) :=
  match matchFieldKw f cs with
  | none => none
  | some r1 =>
    match matchWs1 r1 with
    | none => none
    | some r2 =>
      match matchLit "to".data r2 with
      | none => none
      | some r3 => matchTail r3

/-- Leftmost match of `<field>\s+to\s+(.+)` in the input. -/
def searchFieldTo (f : EditField) : List Char → Option (List Char)
  | [] => none
  | c :: cs =>
    match matchFieldToAt f (c :: cs) with
    | some v => some v
    | none => searchFieldTo f cs

/-- `(?:change|update)\s+(.+)` matched at the head; returns the capture. -/
def matchChangeAt (cs : List Char) : Option (List Char) :=
  match matchLit "change".data cs with
  | some r => matchTail r
  | none =>
    match matchLit "update".data cs with
    | some r => matchTail r
    | none => none

/-- Leftmost match of `(?:change|update)\s+(.+)` in the input. -/
def searchChange : List Char → Option (List Char)
  | [] => none
  | c :: cs =>
    match matchChangeAt (c :: cs) with
    | some v => some v
    | none => searchChange cs

/-- The remainder after the last position where the field regex matches
(the effect of replacing greedy `.*<field>\s*` with the empty string);
`none` when the field pattern occurs nowhere. -/
def lastKwRest (f : EditField) : List Char → Option (List Char)
  | [] => matchFieldKw f []
  | c :: cs =>
    match lastKwRest f cs with
    | some r => some r
    | none => matchFieldKw f (c :: cs)

/-- `extractValue` (handleChangeRequest): the three extraction regexes in
order of preference.  Phase 1 returns the capture untrimmed; phases 2 and
3 strip the field keyword (and its trailing `\s*`) and trim. -/
def extractValue (f : EditField) (userInput : String) : List Char :=
  match searchFieldTo f userInput.data with
  | some v => v
  | none =>
    match searchChange userInput.data with
    | some v =>
      match matchFieldKw f v with
      | some r => trimChars (r.dropWhile Char.isWhitespace)
      | none => trimChars v
    | none =>
      match lastKwRest f userInput.data with
      | some r => trimChars (r.dropWhile Char.isWhitespace)
      | none => trimChars userInput.data

/-- The lower-cased keyword whose presence (`input.includes(kw)`) guards
each field's branch. -/
def kwNeedle (f : EditField) : List Char :=
  match f with
  | .name => "name".data
  | .description => "description".data
  | .audience => "audience".data
  | .dataSource => "data source".data
  | .metric => "metric".data
  | .tab => "tab".data
  | .filter => "filter".data

/-- A field's branch fires iff the lower-cased input contains the keyword
and the extracted value is truthy (non-empty) — otherwise control falls
through to the next field. -/
def editEligible (userInput : String) (f : EditField) : Bool :=
  containsSub (kwNeedle f) (lowerChars userInput.data)
    && !(extractValue f userInput).isEmpty

/-- The per-field parse rule of the change branches for list fields:
`value.split(',').map(s => s.trim())`. -/
def commaSplitTrim (cs : List Char) : List String :=
  (jsSplit ',' cs).map (fun t => String.mk (trimChars t))

/-- `handleChangeRequest` (RequirementsChat): the source's cascade of
`if (input.includes(kw)) { const v = extractValue(pattern); if (v) {
update field; return } }` blocks, in source order; the second component
records which field's branch returned (`none` = the fallback "I'm not
sure what you want to change" reply, which leaves the data unchanged). -/
def handleChangeRequest (userInput : String) (d : FuncData) :
    FuncData × Option EditField :=
  if editEligible userInput .name then
    ({ d with name := some (String.mk (extractValue .name userInput)) }, some .name)
  else if editEligible userInput .description then
    ({ d with description := some (String.mk (extractValue .description userInput)) },
      some .description)
  else if editEligible userInput .audience then
    ({ d with audience := some (String.mk (extractValue .audience userInput)) },
      some .audience)
  else if editEligible userInput .dataSource then
    ({ d with data_sources := some (commaSplitTrim (extractValue .dataSource userInput)) },
      some .dataSource)
  else if editEligible userInput .metric then
    ({ d with metrics := some (commaSplitTrim (extractValue .metric userInput)) },
      some .metric)
  else if editEligible userInput .tab then
    ({ d with tabs := some (String.mk (extractValue .tab userInput)) }, some .tab)
  else if editEligible userInput .filter then
    ({ d with filters := some (commaSplitTrim (extractValue .filter userInput)) },
      some .filter)
  else (d, none)

/-- Spec-side: the fixed priority order of the Change Interpreter. -/
def editPriority : List EditField :=
  [.name, .description, .audience, .dataSource, .metric, .tab, .filter]

/-- Spec-side: the first field in priority order whose keyword matches
with a non-empty extracted value. -/
def firstEligibleField (userInput : String) : Option EditField :=
  editPriority.find? (fun f => editEligible userInput f)

/-- Spec-side: update exactly one field with the extracted value, using
that field's parse rule. -/
def setEditField (f : EditField) (v : List Char) (d : FuncData) : FuncData :=
  match f with
  | .name => { d with name := some (String.mk v) }
  | .description => { d with description := some (String.mk v) }
  | .audience => { d with audience := some (String.mk v) }
  | .dataSource => { d with data_sources := some (commaSplitTrim v) }
  | .metric => { d with metrics := some (commaSplitTrim v) }
  | .tab => { d with tabs := some (String.mk v) }
  | .filter => { d with filters := some (commaSplitTrim v) }

/-- Spec-side: apply an edit to the selected field (or nothing). -/
def applyEdit : Option EditField → String → FuncData → FuncData × Option EditField
  | none, _, d => (d, none)
  | some f, userInput, d => (setEditField f (extractValue f userInput) d, some f)

theorem handleChangeRequest_eq_applyEdit (userInput : String) (d : FuncData) :
    handleChangeRequest userInput d = applyEdit (firstEligibleField userInput) userInput d := by
  unfold handleChangeRequest firstEligibleField editPriority
  by_cases h1 : editEligible userInput .name = true
  · simp [List.find?, h1, applyEdit, setEditField]
  by_cases h2 : editEligible userInput .description = true
  · simp [List.find?, h1, h2, applyEdit, setEditField]
  by_cases h3 : editEligible userInput .audience = true
  · simp [List.find?, h1, h2, h3, applyEdit, setEditField]
  by_cases h4 : editEligible userInput .dataSource = true
  · simp [List.find?, h1, h2, h3, h4, applyEdit, setEditField]
  by_cases h5 : editEligible userInput .metric = true
  · simp [List.find?, h1, h2, h3, h4, h5, applyEdit, setEditField]
  by_cases h6 : editEligible userInput .tab = true
  · simp [List.find?, h1, h2, h3, h4, h5, h6, applyEdit, setEditField]
  by_cases h7 : editEligible userInput .filter = true
  · simp [List.find?, h1, h2, h3, h4, h5, h6, h7, applyEdit, setEditField]
  simp [List.find?, h1, h2, h3, h4, h5, h6, h7, applyEdit]

/-- C5: the Change Interpreter handles exactly the first field in the
priority order name, description, audience, data source(s), metric(s),
tab(s), filter(s) whose keyword occurs with a non-empty extracted value
— one message updates at most one field — and
`"change metrics to Revenue, Profit"` sets `metrics` to
`["Revenue", "Profit"]` and touches no other field. -/
theorem change_interpreter_first_match_only :
    (∀ (userInput : String) (d : FuncData),
        handleChangeRequest userInput d
          = applyEdit (firstEligibleField userInput) userInput d)
    ∧ (∀ d : FuncData,
        handleChangeRequest "change metrics to Revenue, Profit" d
          = ({ d with metrics := some ["Revenue", "Profit"] }, some EditField.metric)) := by
  refine ⟨handleChangeRequest_eq_applyEdit, fun d => ?_⟩
  rw [handleChangeRequest_eq_applyEdit]
  have hf : firstEligibleField "change metrics to Revenue, Profit"
      = some EditField.metric := by decide
  have hx : extractValue EditField.metric "change metrics to Revenue, Profit"
      = "Revenue, Profit".data := by decide
  have hv : commaSplitTrim "Revenue, Profit".data = ["Revenue", "Profit"] := by decide
  rw [hf]
  simp only [applyEdit, setEditField]
  rw [hx, hv]
